import Mathlib

/-!
Verification of the YouTube-Shorts pipeline orchestrator.

This file shallowly embeds the orchestration core of the repository
(`src/main.py`, class `PipelineRunner`) and the cut filter/sort/truncate
and statistics logic of the analyze stage (`src/scripts/3_analyze.py`),
and proves the specified properties about these definitions.

Strings are modelled as `List Char`; Python `None` becomes `Option`;
a Python exception escaping a function becomes `Except Unit`.
Python floats (viral scores, timestamps) are modelled as rationals `ℚ`:
all values and comparisons involved are exact.
-/

namespace ShortsPipeline

/-! ### Video id extraction (`PipelineRunner._extract_video_id`)

The source tries three regular expressions in order, via `re.search`:
  1. `(?:v=|\/)([0-9A-Za-z_-]{11}).*`
  2. `(?:embed\/)([0-9A-Za-z_-]{11})`
  3. `^([0-9A-Za-z_-]{11})$`
returning the first capture group of the first pattern that matches,
and `None` if no pattern matches.  We model `re.search` directly:
a left-to-right scan that at each position tries the pattern's
alternatives in order. -/

/-- The character class `[0-9A-Za-z_-]` of the identifier patterns. -/
def isIdChar (c : Char) : Bool :=
  c.isDigit || c.isUpper || c.isLower || c = '_' || c = '-'

/-- `grabValid n l` matches `[0-9A-Za-z_-]{n}` at the start of `l`:
returns the first `n` characters when they exist and all lie in the
class, `none` otherwise. -/
def grabValid : Nat → List Char → Option (List Char)
  | 0, _ => some []
  | _ + 1, [] => none
  | n + 1, c :: rest =>
      if isIdChar c then (grabValid n rest).map (c :: ·) else none

/-- `stripLit p l` matches the literal characters `p` at the start of
`l`, returning the remainder on success. -/
def stripLit : List Char → List Char → Option (List Char)
  | [], l => some l
  | _ :: _, [] => none
  | p :: ps, c :: cs => if c = p then stripLit ps cs else none

/-- One attempt of pattern 1 `(?:v=|\/)([0-9A-Za-z_-]{11}).*` at a fixed
position: alternative `v=` is tried before `/` (as in the source's
alternation), then the 11-character capture group.  The trailing `.*`
always matches and constrains nothing. -/
def matchAt1 (l : List Char) : Option (List Char) :=
  match stripLit ['v', '='] l with
  | some r => grabValid 11 r
  | none =>
    match stripLit ['/'] l with
    | some r => grabValid 11 r
    | none => none

/-- `re.search` for pattern 1: scan left to right, return the capture of
the leftmost position where `matchAt1` succeeds. -/
def searchP1 : List Char → Option (List Char)
  | [] => none
  | c :: rest =>
    match matchAt1 (c :: rest) with
    | some g => some g
    | none => searchP1 rest

/-- The literal `embed/` of pattern 2. -/
def embedLit : List Char := ['e', 'm', 'b', 'e', 'd', '/']

/-- One attempt of pattern 2 `(?:embed\/)([0-9A-Za-z_-]{11})` at a fixed
position. -/
def matchAt2 (l : List Char) : Option (List Char) :=
  match stripLit embedLit l with
  | some r => grabValid 11 r
  | none => none

/-- `re.search` for pattern 2. -/
def searchP2 : List Char → Option (List Char)
  | [] => none
  | c :: rest =>
    match matchAt2 (c :: rest) with
    | some g => some g
    | none => searchP2 rest

/-- Pattern 3 `^([0-9A-Za-z_-]{11})$`: anchored at the start; `$` matches
at the end of the string or just before a terminating newline (no
`re.MULTILINE` is set in the source). -/
def matchP3 (l : List Char) : Option (List Char) :=
  match grabValid 11 l with
  | some g =>
      if l.length = 11 ∨ (l.length = 12 ∧ l.drop 11 = ['\n']) then some g
      else none
  | none => none

/-- `PipelineRunner._extract_video_id`: try the three patterns in order,
return the capture of the first one that matches anywhere, else `none`. -/
def extract_video_id (url : List Char) : Option (List Char) :=
  match searchP1 url with
  | some g => some g
  | none =>
    match searchP2 url with
    | some g => some g
    | none => matchP3 url

/-! ### Checkpoint globs and the runner state (`src/main.py`)

`_check_stage_completed` formats a stage-specific glob pattern with the
current `video_id` and asks `glob` for matching paths.  The patterns use
only the `*` wildcard, which in Python's `glob` matches any run of
characters not containing the path separator `/`.  The filesystem is
modelled as the list of existing paths; `glob(pattern)` returns exactly
those that match, so `len(glob(pattern)) > 0` is an `any` over them. -/

/-- Glob matching restricted to the `*` wildcard (the only special
character in the source's checkpoint patterns); `*` never matches `/`. -/
def globMatch : List Char → List Char → Bool
  | [], [] => true
  | [], _ :: _ => false
  | '*' :: ps, s =>
      globMatch ps s ||
        (match s with
         | [] => false
         | c :: cs => decide (c ≠ '/') && globMatch ('*' :: ps) cs)
  | _ :: _, [] => false
  | p :: ps, c :: cs => decide (c = p) && globMatch ps cs
termination_by p s => (s.length, p.length)

/-- `PipelineRunner.CHECKPOINTS`: each template has exactly one
`video_id` placeholder; we record the text before and after it, so that
formatting with `vid` is `before ++ vid ++ after`. -/
def CHECKPOINTS : List (String × (List Char × List Char)) :=
  [("download", ("data/raw/".data, ".mp4".data)),
   ("transcribe", ("data/transcripts/".data, "_transcript.json".data)),
   ("analyze", ("data/analysis/".data, "_analysis.json".data)),
   ("cut", ("data/output/".data, "_cut_*.mp4".data)),
   ("export", ("data/output/shorts/".data, "_*_short.mp4".data))]

/-- `PipelineRunner.STAGES`. -/
def STAGES : List String := ["download", "transcribe", "analyze", "cut", "export"]

/-- Python truthiness of the `video_id` attribute (`None` and the empty
string are falsy). -/
def pyTruthy : Option (List Char) → Bool
  | none => false
  | some [] => false
  | some (_ :: _) => true

/-- In-memory state of one `PipelineRunner` (the fields the orchestration
logic reads or writes; `stage_times` is wall-clock bookkeeping and is not
modelled). `results_keys` records which `self.results` keys were stored. -/
structure RState where
  url : List Char
  video_id : Option (List Char)
  resume : Bool
  skip_stages : List String
  stop_on_error : Bool
  verbose : Bool
  results_keys : List String
deriving Repr, DecidableEq

/-- `PipelineRunner.__init__`: extract the id from the URL; empty maps. -/
def pipelineInit (url : List Char) (resume : Bool) (skips : List String)
    (stop : Bool) (verbose : Bool) : RState :=
  { url := url
    video_id := extract_video_id url
    resume := resume
    skip_stages := skips
    stop_on_error := stop
    verbose := verbose
    results_keys := [] }

/-- `PipelineRunner._check_stage_completed`, over the filesystem `fs`
(list of existing paths).  Falsy `video_id` short-circuits to `false`
before the `CHECKPOINTS` dictionary is touched; an unknown stage name
raises `KeyError`, modelled as `Except.error`. -/
def check_stage_completed (fs : List (List Char)) (video_id : Option (List Char))
    (stage : String) : Except Unit Bool :=
  match video_id with
  | none => .ok false
  | some [] => .ok false
  | some vid =>
    match (CHECKPOINTS.lookup stage) with
    | none => .error ()
    | some (pre, post) =>
        .ok (fs.any fun f => globMatch (pre ++ vid ++ post) f)

/-- `PipelineRunner._should_skip_stage`: forced skip first, then
resume-and-checkpoint (with Python's short-circuiting `and`, so the
checkpoint lookup only runs when `resume` is set). -/
def should_skip_stage (st : RState) (fs : List (List Char)) (stage : String) :
    Except Unit Bool :=
  if stage ∈ st.skip_stages then .ok true
  else if st.resume then check_stage_completed fs st.video_id stage
  else .ok false

/-! ### Stage execution and the run loop -/

/-- The stage adapters, abstracted: whether each adapter call succeeds,
and the stem of the path the download adapter returns. -/
structure Adapters where
  ok : String → Bool
  download_stem : List Char

/-- `PipelineRunner.execute_stage`: call the stage adapter; on success
store its result (for `download`, additionally set `video_id` from the
result's stem when the current value is falsy); on failure re-raise when
`stop_on_error` is set, otherwise swallow the error and return. -/
def execute_stage (ad : Adapters) (st : RState) (stage : String) :
    Except Unit RState :=
  if ad.ok stage then
    .ok (if stage = "download" then
           if pyTruthy st.video_id then
             { st with results_keys := st.results_keys ++ ["video_path"] }
           else
             { st with results_keys := st.results_keys ++ ["video_path"],
                       video_id := some ad.download_stem }
         else if stage = "transcribe" then
           { st with results_keys := st.results_keys ++ ["transcript"] }
         else if stage = "analyze" then
           { st with results_keys := st.results_keys ++ ["analysis"] }
         else if stage = "cut" then
           { st with results_keys := st.results_keys ++ ["cuts"] }
         else if stage = "export" then
           { st with results_keys := st.results_keys ++ ["shorts"] }
         else st)
  else if st.stop_on_error then .error () else .ok st

/-- The stage loop of `PipelineRunner.run`: for each stage, skip when
`_should_skip_stage` says so, else execute; an exception escaping
`execute_stage` triggers `sys.exit(1)`.  Returns the final state, the
list of stages whose adapter was invoked (in invocation order), and
`true` iff the loop completed without exiting (exit code 0 path). -/
def run_stages (ad : Adapters) (fs : List (List Char)) :
    RState → List String → RState × List String × Bool
  | st, [] => (st, [], true)
  | st, stage :: rest =>
    match should_skip_stage st fs stage with
    | .error _ => (st, [], false)
    | .ok true => run_stages ad fs st rest
    | .ok false =>
      match execute_stage ad st stage with
      | .error _ => (st, [stage], false)
      | .ok st2 =>
          let r := run_stages ad fs st2 rest
          (r.1, stage :: r.2.1, r.2.2)

/-- `PipelineRunner.run`, from the stage loop on (dependency validation
precedes it and is environment-dependent; it is not modelled). -/
def run (ad : Adapters) (fs : List (List Char)) (st : RState) :
    RState × List String × Bool :=
  run_stages ad fs st STAGES

/-! ### The analyze stage's cut selection (`src/scripts/3_analyze.py`)

After validation/normalization, `analyze_transcript` filters the
validated cuts by `viral_score >= min_viral_score`, sorts the survivors
in place by `viral_score` descending (Python's stable sort with
`reverse=True`), truncates to `max_cuts_to_export`, and derives the
`stats` dictionary.  Scores and timestamps are Python floats; every
value the claims touch is exact, so they are modelled as `ℚ`. -/

/-- A validated cut candidate (the fields the selection logic reads;
the remaining fields of the artifact are free-text metadata that the
filter/sort/truncate step never inspects). -/
structure Cut where
  start : ℚ
  endTime : ℚ
  duration : ℚ
  viral_score : ℚ
deriving Repr, DecidableEq

/-- The descending comparison `list.sort(key=lambda x: x['viral_score'],
reverse=True)` sorts with: `a` may precede `b` iff `b`'s score is at most
`a`'s. -/
def scoreDesc (a b : Cut) : Bool :=
  decide (b.viral_score ≤ a.viral_score)

/-- Filter by minimum viral score, sort descending (stably), truncate to
the export cap — the cut list `analyze_transcript` stores under `cuts`. -/
def analyzeCuts (validated : List Cut) (min_viral_score : ℚ)
    (max_cuts_to_export : ℕ) : List Cut :=
  (((validated.filter fun c => min_viral_score ≤ c.viral_score).mergeSort
      scoreDesc).take max_cuts_to_export)

/-- The `stats` dictionary of the analysis artifact. -/
structure AnalysisStats where
  total_analyzed : ℕ
  filtered : ℕ
  exported : ℕ
  avg_viral_score : ℚ
deriving Repr, DecidableEq

/-- The `stats` entry `analyze_transcript` computes: `total_analyzed` is
the number of validated cuts, `filtered` the number surviving the score
threshold, `exported` the number in the final (truncated) list, and
`avg_viral_score` the mean score of the final list, `0` when it is
empty. -/
def analyzeStats (validated : List Cut) (min_viral_score : ℚ)
    (max_cuts_to_export : ℕ) : AnalysisStats :=
  let filtered_cuts := validated.filter fun c => min_viral_score ≤ c.viral_score
  let final_cuts := analyzeCuts validated min_viral_score max_cuts_to_export
  { total_analyzed := validated.length
    filtered := filtered_cuts.length
    exported := final_cuts.length
    avg_viral_score :=
      if final_cuts.isEmpty then 0
      else (final_cuts.map Cut.viral_score).sum / final_cuts.length }

/-! ### Declarative readings of the three URL patterns

Used to state claims about extraction without referring to the search
algorithm itself: a pattern "matches" a string iff the string decomposes
around an occurrence of the pattern. -/

/-- Pattern 1 read declaratively: somewhere in the string, `v=` or `/` is
followed by 11 identifier characters. -/
def specP1 (url : List Char) : Prop :=
  ∃ pre g post,
    (url = pre ++ 'v' :: '=' :: (g ++ post) ∨ url = pre ++ '/' :: (g ++ post)) ∧
    g.length = 11 ∧ ∀ c ∈ g, isIdChar c = true

/-- Pattern 2 read declaratively: somewhere in the string, `embed/` is
followed by 11 identifier characters. -/
def specP2 (url : List Char) : Prop :=
  ∃ pre g post,
    url = pre ++ embedLit ++ (g ++ post) ∧
    g.length = 11 ∧ ∀ c ∈ g, isIdChar c = true

/-- Pattern 3 read declaratively: the whole string is 11 identifier
characters, possibly followed by one final newline (which `$` accepts). -/
def specP3 (url : List Char) : Prop :=
  (url.length = 11 ∧ ∀ c ∈ url, isIdChar c = true) ∨
  (∃ g, url = g ++ ['\n'] ∧ g.length = 11 ∧ ∀ c ∈ g, isIdChar c = true)

/-! ### Lemmas about the matchers -/

theorem grabValid_append (g rest : List Char) (hv : ∀ c ∈ g, isIdChar c = true) :
    grabValid g.length (g ++ rest) = some g := by
  induction g with
  | nil => simp [grabValid]
  | cons c cs ih =>
      have hc : isIdChar c = true := hv c (by simp)
      have ih2 := ih (fun d hd => hv d (by simp [hd]))
      simp [grabValid, hc, ih2]

theorem grabValid_eq_some (id : List Char) (hlen : id.length = 11)
    (hv : ∀ c ∈ id, isIdChar c = true) : grabValid 11 id = some id := by
  have := grabValid_append id [] hv
  rw [hlen, List.append_nil] at this
  exact this

theorem grabValid_sound : ∀ {n : ℕ} {l g : List Char}, grabValid n l = some g →
    g.length = n ∧ (∀ c ∈ g, isIdChar c = true) ∧ ∃ rest, l = g ++ rest := by
  intro n
  induction n with
  | zero =>
      intro l g h
      simp [grabValid] at h
      subst h
      simp
  | succ m ih =>
      intro l g h
      match l with
      | [] => simp [grabValid] at h
      | c :: rest =>
          simp only [grabValid] at h
          by_cases hc : isIdChar c = true
          · rw [if_pos hc] at h
            cases hg : grabValid m rest with
            | none => rw [hg] at h; simp at h
            | some g0 =>
                rw [hg] at h
                simp only [Option.map_some'] at h
                injection h with h
                obtain ⟨hlen, hval, rest0, hrest⟩ := ih hg
                subst h
                refine ⟨by simp [hlen], ?_, rest0, by rw [hrest]; simp⟩
                intro d hd
                rcases List.mem_cons.mp hd with h1 | h1
                · rw [h1]; exact hc
                · exact hval d h1
          · rw [if_neg hc] at h
            exact absurd h (by simp)

theorem stripLit_sound : ∀ {p l r : List Char}, stripLit p l = some r → l = p ++ r := by
  intro p
  induction p with
  | nil =>
      intro l r h
      simp [stripLit] at h
      simp [h]
  | cons q qs ih =>
      intro l r h
      match l with
      | [] => simp [stripLit] at h
      | c :: cs =>
          simp only [stripLit] at h
          by_cases hc : c = q
          · rw [if_pos hc] at h
            rw [hc, List.cons_append]
            exact congrArg _ (ih h)
          · rw [if_neg hc] at h
            exact absurd h (by simp)

theorem matchAt1_none_of_valid {l : List Char}
    (hv : ∀ c ∈ l, isIdChar c = true) : matchAt1 l = none := by
  unfold matchAt1
  cases h1 : stripLit ['v', '='] l with
  | some r =>
      exfalso
      have hl := stripLit_sound h1
      have : isIdChar '=' = true := hv '=' (by rw [hl]; simp)
      exact absurd this (by decide)
  | none =>
      cases h2 : stripLit ['/'] l with
      | some r =>
          exfalso
          have hl := stripLit_sound h2
          have : isIdChar '/' = true := hv '/' (by rw [hl]; simp)
          exact absurd this (by decide)
      | none => rfl

theorem matchAt2_none_of_valid {l : List Char}
    (hv : ∀ c ∈ l, isIdChar c = true) : matchAt2 l = none := by
  unfold matchAt2
  cases h1 : stripLit embedLit l with
  | some r =>
      exfalso
      have hl := stripLit_sound h1
      have : isIdChar '/' = true := hv '/' (by rw [hl]; simp [embedLit])
      exact absurd this (by decide)
  | none => rfl

theorem searchP1_none_of_valid : ∀ {l : List Char},
    (∀ c ∈ l, isIdChar c = true) → searchP1 l = none := by
  intro l
  induction l with
  | nil => intro _; rfl
  | cons c rest ih =>
      intro hv
      have h1 : matchAt1 (c :: rest) = none := matchAt1_none_of_valid hv
      have h2 := ih (fun d hd => hv d (by simp [hd]))
      simp [searchP1, h1, h2]

theorem searchP2_none_of_valid : ∀ {l : List Char},
    (∀ c ∈ l, isIdChar c = true) → searchP2 l = none := by
  intro l
  induction l with
  | nil => intro _; rfl
  | cons c rest ih =>
      intro hv
      have h1 : matchAt2 (c :: rest) = none := matchAt2_none_of_valid hv
      have h2 := ih (fun d hd => hv d (by simp [hd]))
      simp [searchP2, h1, h2]

theorem matchAt1_sound {l g : List Char} (h : matchAt1 l = some g) :
    ∃ post, (l = 'v' :: '=' :: (g ++ post) ∨ l = '/' :: (g ++ post)) ∧
      g.length = 11 ∧ ∀ c ∈ g, isIdChar c = true := by
  unfold matchAt1 at h
  cases h1 : stripLit ['v', '='] l with
  | some r =>
      rw [h1] at h
      obtain ⟨hlen, hval, post, hpost⟩ := grabValid_sound h
      refine ⟨post, Or.inl ?_, hlen, hval⟩
      rw [stripLit_sound h1, hpost]
      rfl
  | none =>
      rw [h1] at h
      cases h2 : stripLit ['/'] l with
      | some r =>
          rw [h2] at h
          obtain ⟨hlen, hval, post, hpost⟩ := grabValid_sound h
          refine ⟨post, Or.inr ?_, hlen, hval⟩
          rw [stripLit_sound h2, hpost]
          rfl
      | none => rw [h2] at h; exact absurd h (by simp)

theorem searchP1_sound : ∀ {l g : List Char}, searchP1 l = some g → specP1 l := by
  intro l
  induction l with
  | nil => intro g h; exact absurd h (by simp [searchP1])
  | cons c rest ih =>
      intro g h
      simp only [searchP1] at h
      cases hm : matchAt1 (c :: rest) with
      | some g0 =>
          rw [hm] at h
          injection h with h
          subst h
          obtain ⟨post, hdec, hlen, hval⟩ := matchAt1_sound hm
          exact ⟨[], g0, post, by simpa using hdec, hlen, hval⟩
      | none =>
          rw [hm] at h
          obtain ⟨pre, g0, post, hdec, hlen, hval⟩ := ih h
          refine ⟨c :: pre, g0, post, ?_, hlen, hval⟩
          rcases hdec with h1 | h1
          · exact Or.inl (by rw [List.cons_append, h1])
          · exact Or.inr (by rw [List.cons_append, h1])

theorem matchAt2_sound {l g : List Char} (h : matchAt2 l = some g) :
    ∃ post, l = embedLit ++ (g ++ post) ∧
      g.length = 11 ∧ ∀ c ∈ g, isIdChar c = true := by
  unfold matchAt2 at h
  cases h1 : stripLit embedLit l with
  | some r =>
      rw [h1] at h
      obtain ⟨hlen, hval, post, hpost⟩ := grabValid_sound h
      exact ⟨post, by rw [stripLit_sound h1, hpost], hlen, hval⟩
  | none => rw [h1] at h; exact absurd h (by simp)

theorem searchP2_sound : ∀ {l g : List Char}, searchP2 l = some g → specP2 l := by
  intro l
  induction l with
  | nil => intro g h; exact absurd h (by simp [searchP2])
  | cons c rest ih =>
      intro g h
      simp only [searchP2] at h
      cases hm : matchAt2 (c :: rest) with
      | some g0 =>
          rw [hm] at h
          injection h with h
          subst h
          obtain ⟨post, hdec, hlen, hval⟩ := matchAt2_sound hm
          exact ⟨[], g0, post, by simpa using hdec, hlen, hval⟩
      | none =>
          rw [hm] at h
          obtain ⟨pre, g0, post, hdec, hlen, hval⟩ := ih h
          refine ⟨c :: pre, g0, post, ?_, hlen, hval⟩
          rw [List.cons_append, hdec]
          simp [List.append_assoc]

theorem matchP3_sound {l g : List Char} (h : matchP3 l = some g) : specP3 l := by
  unfold matchP3 at h
  cases h1 : grabValid 11 l with
  | none => rw [h1] at h; exact absurd h (by simp)
  | some g0 =>
      rw [h1] at h
      have h2 : (if l.length = 11 ∨ (l.length = 12 ∧ l.drop 11 = ['\n'])
          then some g0 else none) = some g := h
      by_cases hc : l.length = 11 ∨ (l.length = 12 ∧ l.drop 11 = ['\n'])
      · obtain ⟨hlen, hval, rest, hrest⟩ := grabValid_sound h1
        rcases hc with hc | ⟨hc, hdrop⟩
        · left
          refine ⟨hc, ?_⟩
          have hr : rest = [] := by
            have h3 := congrArg List.length hrest
            simp [hc, hlen] at h3
            exact h3
          rw [hrest, hr, List.append_nil]
          exact hval
        · right
          refine ⟨g0, ?_, hlen, hval⟩
          have hdl : List.drop 11 l = rest := by
            rw [hrest, ← hlen]
            exact List.drop_left g0 rest
          rw [hdl] at hdrop
          rw [hrest, hdrop]
      · rw [if_neg hc] at h2
        exact absurd h2 (by simp)

theorem searchP1_complete_v : ∀ (pre g post : List Char),
    g.length = 11 → (∀ c ∈ g, isIdChar c = true) →
    (searchP1 (pre ++ 'v' :: '=' :: (g ++ post))).isSome = true := by
  intro pre
  induction pre with
  | nil =>
      intro g post hlen hval
      have hm : matchAt1 ('v' :: '=' :: (g ++ post)) = grabValid 11 (g ++ post) := rfl
      have hg : grabValid 11 (g ++ post) = some g := by
        have := grabValid_append g post hval
        rwa [hlen] at this
      simp [searchP1, hm, hg]
  | cons c pre ih =>
      intro g post hlen hval
      rw [List.cons_append]
      simp only [searchP1]
      cases hm : matchAt1 (c :: (pre ++ 'v' :: '=' :: (g ++ post))) with
      | some g0 => simp
      | none => simpa using ih g post hlen hval

theorem searchP1_complete_slash : ∀ (pre g post : List Char),
    g.length = 11 → (∀ c ∈ g, isIdChar c = true) →
    (searchP1 (pre ++ '/' :: (g ++ post))).isSome = true := by
  intro pre
  induction pre with
  | nil =>
      intro g post hlen hval
      have hg : grabValid 11 (g ++ post) = some g := by
        have := grabValid_append g post hval
        rwa [hlen] at this
      have hm : matchAt1 ('/' :: (g ++ post)) = some g := by
        unfold matchAt1
        simp [stripLit, hg]
      simp [searchP1, hm]
  | cons c pre ih =>
      intro g post hlen hval
      rw [List.cons_append]
      simp only [searchP1]
      cases hm : matchAt1 (c :: (pre ++ '/' :: (g ++ post))) with
      | some g0 => simp
      | none => simpa using ih g post hlen hval

theorem searchP2_complete : ∀ (pre g post : List Char),
    g.length = 11 → (∀ c ∈ g, isIdChar c = true) →
    (searchP2 (pre ++ embedLit ++ (g ++ post))).isSome = true := by
  intro pre
  induction pre with
  | nil =>
      intro g post hlen hval
      have hg : grabValid 11 (g ++ post) = some g := by
        have := grabValid_append g post hval
        rwa [hlen] at this
      have hm : matchAt2 (embedLit ++ (g ++ post)) = some g := by
        unfold matchAt2
        simp [embedLit, stripLit, hg]
      rw [List.nil_append]
      cases hE : embedLit ++ (g ++ post) with
      | nil => simp [embedLit] at hE
      | cons c rest =>
          rw [← hE]
          rw [hE]
          simp only [searchP2]
          rw [← hE, hm]
          simp
  | cons c pre ih =>
      intro g post hlen hval
      rw [List.append_assoc, List.cons_append]
      simp only [searchP2]
      cases hm : matchAt2 (c :: (pre ++ (embedLit ++ (g ++ post)))) with
      | some g0 => simp
      | none =>
          have := ih g post hlen hval
          rw [List.append_assoc] at this
          simpa using this

theorem matchP3_complete_exact {l : List Char} (hlen : l.length = 11)
    (hv : ∀ c ∈ l, isIdChar c = true) : matchP3 l = some l := by
  unfold matchP3
  rw [grabValid_eq_some l hlen hv]
  simp [hlen]

theorem matchP3_complete_newline {g : List Char} (hlen : g.length = 11)
    (hv : ∀ c ∈ g, isIdChar c = true) : matchP3 (g ++ ['\n']) = some g := by
  unfold matchP3
  have hg : grabValid 11 (g ++ ['\n']) = some g := by
    have := grabValid_append g ['\n'] hv
    rwa [hlen] at this
  rw [hg]
  have hd : (g ++ ['\n']).drop 11 = ['\n'] := by
    rw [← hlen]
    exact List.drop_left g ['\n']
  simp [hlen, hd]

theorem extract_isSome_of_spec {url : List Char}
    (h : specP1 url ∨ specP2 url ∨ specP3 url) :
    (extract_video_id url).isSome = true := by
  unfold extract_video_id
  rcases h with ⟨pre, g, post, hdec, hlen, hval⟩ | ⟨pre, g, post, hdec, hlen, hval⟩ | h3
  · rcases hdec with h1 | h1
    · subst h1
      have := searchP1_complete_v pre g post hlen hval
      cases hs : searchP1 (pre ++ 'v' :: '=' :: (g ++ post)) with
      | none => rw [hs] at this; simp at this
      | some g0 => rfl
    · subst h1
      have := searchP1_complete_slash pre g post hlen hval
      cases hs : searchP1 (pre ++ '/' :: (g ++ post)) with
      | none => rw [hs] at this; simp at this
      | some g0 => rfl
  · subst hdec
    cases hs : searchP1 (pre ++ embedLit ++ (g ++ post)) with
    | some g0 => rfl
    | none =>
        have := searchP2_complete pre g post hlen hval
        cases hs2 : searchP2 (pre ++ embedLit ++ (g ++ post)) with
        | none => rw [hs2] at this; simp at this
        | some g0 => rfl
  · cases hs : searchP1 url with
    | some g0 => rfl
    | none =>
        cases hs2 : searchP2 url with
        | some g0 => rfl
        | none =>
            rcases h3 with ⟨hlen, hval⟩ | ⟨g, hg, hlen, hval⟩
            · rw [matchP3_complete_exact hlen hval]; rfl
            · subst hg; rw [matchP3_complete_newline hlen hval]; rfl

theorem extract_sound {url g : List Char} (h : extract_video_id url = some g) :
    specP1 url ∨ specP2 url ∨ specP3 url := by
  unfold extract_video_id at h
  cases h1 : searchP1 url with
  | some g0 => exact Or.inl (searchP1_sound h1)
  | none =>
      rw [h1] at h
      cases h2 : searchP2 url with
      | some g0 => exact Or.inr (Or.inl (searchP2_sound h2))
      | none =>
          rw [h2] at h
          exact Or.inr (Or.inr (matchP3_sound h))

/-- Claim C6: on every input string that matches none of the three URL
patterns (read declaratively as `specP1`/`specP2`/`specP3`), extraction
returns `none` — and conversely, it returns `none` only on such strings.
`extract_video_id` is a total Lean function, so in particular no input
makes it fail: the source's `_extract_video_id` cannot raise, matching
the claim's "never raises an exception". -/
theorem extract_none_iff_unrecognized (url : List Char) :
    extract_video_id url = none ↔ ¬ (specP1 url ∨ specP2 url ∨ specP3 url) := by
  constructor
  · intro hnone hspec
    have := extract_isSome_of_spec hspec
    rw [hnone] at this
    simp at this
  · intro hn
    cases he : extract_video_id url with
    | none => rfl
    | some g => exact absurd (extract_sound he) hn

/-- One `re.search` step of pattern 1 over the concrete watch-form
prefix: every earlier position fails on a concrete character, so the
search reduces to the capture attempt right after `v=`. -/
theorem searchP1_watch_step (id : List Char) :
    searchP1 ("https://www.youtube.com/watch?v=".data ++ id) =
      (match grabValid 11 id with
       | some g => some g
       | none => searchP1 ('=' :: id)) := rfl

/-- One `re.search` step of pattern 1 over the concrete embed-form
prefix: the final `/` of `embed/` is the first position whose capture
attempt reaches the identifier. -/
theorem searchP1_embed_step (id : List Char) :
    searchP1 ("https://www.youtube.com/embed/".data ++ id) =
      (match grabValid 11 id with
       | some g => some g
       | none => searchP1 id) := rfl

/-- Claim C5: every valid 11-character identifier embedded in the
watch-query form, the embed form, or standing bare, is extracted
exactly; in particular (see the witness) extraction on
`https://www.youtube.com/watch?v=dQw4w9WgXcQ` yields `dQw4w9WgXcQ`. -/
theorem extract_id_supported_shapes (id : List Char) (hlen : id.length = 11)
    (hv : ∀ c ∈ id, isIdChar c = true) :
    extract_video_id ("https://www.youtube.com/watch?v=".data ++ id) = some id ∧
    extract_video_id ("https://www.youtube.com/embed/".data ++ id) = some id ∧
    extract_video_id id = some id := by
  have hgrab := grabValid_eq_some id hlen hv
  have h1 : searchP1 ("https://www.youtube.com/watch?v=".data ++ id) = some id := by
    rw [searchP1_watch_step, hgrab]
  have h2 : searchP1 ("https://www.youtube.com/embed/".data ++ id) = some id := by
    rw [searchP1_embed_step, hgrab]
  have h3 : searchP1 id = none := searchP1_none_of_valid hv
  have h4 : searchP2 id = none := searchP2_none_of_valid hv
  have h5 : matchP3 id = some id := matchP3_complete_exact hlen hv
  refine ⟨?_, ?_, ?_⟩
  · unfold extract_video_id
    rw [h1]
  · unfold extract_video_id
    rw [h2]
  · unfold extract_video_id
    rw [h3, h4, h5]

/-- Witness for C5 at the spec's concrete scenario. -/
theorem extract_id_supported_shapes_witness :
    ("dQw4w9WgXcQ".data.length = 11 ∧
      (∀ c ∈ "dQw4w9WgXcQ".data, isIdChar c = true)) ∧
    extract_video_id ("https://www.youtube.com/watch?v=".data ++ "dQw4w9WgXcQ".data) =
      some "dQw4w9WgXcQ".data ∧
    extract_video_id ("https://www.youtube.com/embed/".data ++ "dQw4w9WgXcQ".data) =
      some "dQw4w9WgXcQ".data ∧
    extract_video_id "dQw4w9WgXcQ".data = some "dQw4w9WgXcQ".data :=
  ⟨⟨by decide, by decide⟩,
    extract_id_supported_shapes "dQw4w9WgXcQ".data (by decide) (by decide)⟩

/-! ### Claims about the skip/checkpoint decisions -/

theorem check_stage_ok_of_stages {fs : List (List Char)}
    {v : Option (List Char)} {stage : String} (h : stage ∈ STAGES) :
    ∃ b, check_stage_completed fs v stage = .ok b := by
  match v with
  | none => exact ⟨false, rfl⟩
  | some [] => exact ⟨false, rfl⟩
  | some (c :: cs) =>
      simp only [STAGES, List.mem_cons, List.not_mem_nil, or_false] at h
      rcases h with rfl | rfl | rfl | rfl | rfl <;>
        exact ⟨_, rfl⟩

/-- Claim C1: `_should_skip_stage` decides to skip exactly when the stage
is in the forced-skip set or resume mode is on and the stage's checkpoint
check succeeds; the forced-skip condition is tested first, so membership
in the skip set forces a skip for any state whatsoever (checkpoint state,
resume flag and `video_id` notwithstanding). -/
theorem should_skip_stage_iff (st : RState) (fs : List (List Char)) (stage : String) :
    (stage ∈ st.skip_stages → should_skip_stage st fs stage = .ok true) ∧
    (stage ∈ STAGES →
      (should_skip_stage st fs stage = .ok true ↔
        (stage ∈ st.skip_stages ∨
          (st.resume = true ∧
            check_stage_completed fs st.video_id stage = .ok true)))) := by
  constructor
  · intro hmem
    unfold should_skip_stage
    rw [if_pos hmem]
  · intro hstage
    by_cases hmem : stage ∈ st.skip_stages
    · unfold should_skip_stage
      rw [if_pos hmem]
      simp [hmem]
    · unfold should_skip_stage
      rw [if_neg hmem]
      by_cases hr : st.resume
      · obtain ⟨b, hb⟩ := @check_stage_ok_of_stages fs st.video_id stage hstage
        simp [hr, hb, hmem]
      · simp [hr, hmem]

/-- A concrete runner state for the claim witnesses: forced skip of
`download`, resume on. -/
def skipWitnessState : RState :=
  pipelineInit "https://www.youtube.com/watch?v=dQw4w9WgXcQ".data true ["download"] true false

/-- Witness for C1 at a concrete state: the forced-skip arm and the
iff arm, each with its hypothesis discharged. -/
theorem should_skip_stage_iff_witness :
    ("download" ∈ skipWitnessState.skip_stages ∧
      should_skip_stage skipWitnessState [] "download" = .ok true) ∧
    ("transcribe" ∈ STAGES ∧
      (should_skip_stage skipWitnessState [] "transcribe" = .ok true ↔
        ("transcribe" ∈ skipWitnessState.skip_stages ∨
          (skipWitnessState.resume = true ∧
            check_stage_completed [] skipWitnessState.video_id "transcribe" = .ok true)))) :=
  ⟨⟨by decide, (should_skip_stage_iff skipWitnessState [] "download").1 (by decide)⟩,
   ⟨by decide, (should_skip_stage_iff skipWitnessState [] "transcribe").2 (by decide)⟩⟩

/-- Claim C4: with `video_id` unset, the checkpoint check returns
`.ok false` for every stage name — it cannot raise, because the unset
check precedes the pattern lookup — and hence resume mode alone (the
stage not being force-skipped) never skips a stage. -/
theorem unset_video_id_never_skips (fs : List (List Char)) (stage : String) :
    check_stage_completed fs none stage = .ok false ∧
    (∀ st : RState, st.video_id = none → stage ∉ st.skip_stages →
      should_skip_stage st fs stage = .ok false) := by
  refine ⟨rfl, ?_⟩
  intro st hvid hmem
  unfold should_skip_stage
  rw [if_neg hmem]
  by_cases hr : st.resume
  · simp [hr, check_stage_completed, hvid]
  · simp [hr]

/-- A runner state whose URL matches no pattern, leaving `video_id`
unset. -/
def unsetWitnessState : RState :=
  pipelineInit "not a match".data true [] true false

/-- Witness for C4 at a concrete unset-identifier state. -/
theorem unset_video_id_never_skips_witness :
    (unsetWitnessState.video_id = none ∧ "analyze" ∉ unsetWitnessState.skip_stages) ∧
    should_skip_stage unsetWitnessState [] "analyze" = .ok false :=
  ⟨⟨by decide, by decide⟩,
    (unset_video_id_never_skips [] "analyze").2 unsetWitnessState (by decide) (by decide)⟩

/-! ### Lemmas about stage execution and the run loop -/

theorem execute_stage_preserves {ad : Adapters} {st : RState} {s : String}
    {st2 : RState} (h : execute_stage ad st s = .ok st2) :
    st2.resume = st.resume ∧ st2.skip_stages = st.skip_stages ∧
      st2.stop_on_error = st.stop_on_error := by
  unfold execute_stage at h
  by_cases hok : ad.ok s
  · rw [if_pos hok] at h
    injection h with h
    subst h
    split_ifs <;> simp
  · rw [if_neg hok] at h
    by_cases hstop : st.stop_on_error
    · rw [if_pos hstop] at h
      exact absurd h (by simp)
    · rw [if_neg hstop] at h
      injection h with h
      subst h
      exact ⟨rfl, rfl, rfl⟩

theorem execute_stage_ok_of_adapter {ad : Adapters} {st : RState} {s : String}
    (hok : ad.ok s = true) : ∃ st2, execute_stage ad st s = .ok st2 := by
  unfold execute_stage
  rw [if_pos hok]
  exact ⟨_, rfl⟩

theorem execute_stage_ok_elim {ad : Adapters} {st : RState} {s : String}
    {st2 : RState} (h : execute_stage ad st s = .ok st2)
    (hstop : st.stop_on_error = true) : ad.ok s = true := by
  by_cases hok : ad.ok s
  · simpa using hok
  · unfold execute_stage at h
    rw [if_neg hok, if_pos hstop] at h
    exact absurd h (by simp)

theorem run_stages_cons_skiperr {ad : Adapters} {fs : List (List Char)}
    {st : RState} {stage : String} {rest : List String} {e : Unit}
    (h : should_skip_stage st fs stage = .error e) :
    run_stages ad fs st (stage :: rest) = (st, [], false) := by
  simp [run_stages, h]

theorem run_stages_cons_skip {ad : Adapters} {fs : List (List Char)}
    {st : RState} {stage : String} {rest : List String}
    (h : should_skip_stage st fs stage = .ok true) :
    run_stages ad fs st (stage :: rest) = run_stages ad fs st rest := by
  simp [run_stages, h]

theorem run_stages_cons_fail {ad : Adapters} {fs : List (List Char)}
    {st : RState} {stage : String} {rest : List String} {e : Unit}
    (h : should_skip_stage st fs stage = .ok false)
    (he : execute_stage ad st stage = .error e) :
    run_stages ad fs st (stage :: rest) = (st, [stage], false) := by
  simp [run_stages, h, he]

theorem run_stages_cons_exec {ad : Adapters} {fs : List (List Char)}
    {st : RState} {stage : String} {rest : List String} {st2 : RState}
    (h : should_skip_stage st fs stage = .ok false)
    (he : execute_stage ad st stage = .ok st2) :
    run_stages ad fs st (stage :: rest) =
      ((run_stages ad fs st2 rest).1,
        stage :: (run_stages ad fs st2 rest).2.1,
        (run_stages ad fs st2 rest).2.2) := by
  simp [run_stages, h, he]

theorem run_stages_sublist (ad : Adapters) (fs : List (List Char)) :
    ∀ (stages : List String) (st : RState),
      ((run_stages ad fs st stages).2.1).Sublist stages := by
  intro stages
  induction stages with
  | nil => intro st; simp [run_stages]
  | cons stage rest ih =>
      intro st
      simp only [run_stages]
      cases hsk : should_skip_stage st fs stage with
      | error e => exact List.nil_sublist _
      | ok b =>
          cases b with
          | true => exact (ih st).cons stage
          | false =>
              cases hex : execute_stage ad st stage with
              | error e =>
                  exact (List.nil_sublist rest).cons₂ stage
              | ok st2 =>
                  exact (ih st2).cons₂ stage

theorem run_stages_stop_fail (ad : Adapters) (fs : List (List Char)) (s : String) :
    ∀ (stages : List String) (st : RState),
      st.stop_on_error = true → ad.ok s = false →
      s ∈ (run_stages ad fs st stages).2.1 →
      (run_stages ad fs st stages).2.2 = false ∧
        (run_stages ad fs st stages).2.1.getLast? = some s := by
  intro stages
  induction stages with
  | nil => intro st _ _ hmem; simp [run_stages] at hmem
  | cons stage rest ih =>
      intro st hstop hfail hmem
      cases hsk : should_skip_stage st fs stage with
      | error e =>
          rw [run_stages_cons_skiperr hsk] at hmem
          simp at hmem
      | ok b =>
          cases b with
          | true =>
              rw [run_stages_cons_skip hsk] at hmem ⊢
              exact ih st hstop hfail hmem
          | false =>
              cases hex : execute_stage ad st stage with
              | error e =>
                  rw [run_stages_cons_fail hsk hex] at hmem ⊢
                  simp at hmem
                  subst hmem
                  exact ⟨rfl, rfl⟩
              | ok st2 =>
                  rw [run_stages_cons_exec hsk hex] at hmem ⊢
                  have hok : ad.ok stage = true := execute_stage_ok_elim hex hstop
                  have hne : s ≠ stage := by
                    intro hcontra
                    rw [hcontra] at hfail
                    rw [hfail] at hok
                    exact absurd hok (by simp)
                  have hmem2 : s ∈ (run_stages ad fs st2 rest).2.1 := by
                    rcases List.mem_cons.mp hmem with h1 | h1
                    · exact absurd h1 hne
                    · exact h1
                  have hstop2 : st2.stop_on_error = true := by
                    rw [(execute_stage_preserves hex).2.2, hstop]
                  obtain ⟨hdone, hlast⟩ := ih st2 hstop2 hfail hmem2
                  refine ⟨hdone, ?_⟩
                  show (stage :: (run_stages ad fs st2 rest).2.1).getLast? = some s
                  cases hr : (run_stages ad fs st2 rest).2.1 with
                  | nil => rw [hr] at hmem2; simp at hmem2
                  | cons a t =>
                      rw [hr] at hlast
                      rw [List.getLast?_cons_cons]
                      exact hlast

theorem should_skip_ok_of_stages {st : RState} {fs : List (List Char)}
    {stage : String} (h : stage ∈ STAGES) :
    ∃ b, should_skip_stage st fs stage = .ok b := by
  unfold should_skip_stage
  by_cases hmem : stage ∈ st.skip_stages
  · rw [if_pos hmem]; exact ⟨true, rfl⟩
  · rw [if_neg hmem]
    by_cases hr : st.resume
    · rw [if_pos hr]
      exact check_stage_ok_of_stages h
    · rw [if_neg hr]
      exact ⟨false, rfl⟩

theorem run_stages_continue (ad : Adapters) (fs : List (List Char)) :
    ∀ (stages : List String) (st : RState),
      st.stop_on_error = false → (∀ x ∈ stages, x ∈ STAGES) →
      (run_stages ad fs st stages).2.2 = true := by
  intro stages
  induction stages with
  | nil => intro st _ _; rfl
  | cons stage rest ih =>
      intro st hstop hall
      simp only [run_stages]
      obtain ⟨b, hb⟩ := @should_skip_ok_of_stages st fs stage
        (hall stage (by simp))
      rw [hb]
      cases b with
      | true => exact ih st hstop (fun x hx => hall x (by simp [hx]))
      | false =>
          cases hex : execute_stage ad st stage with
          | error e =>
              exfalso
              unfold execute_stage at hex
              by_cases hok : ad.ok stage
              · rw [if_pos hok] at hex; exact absurd hex (by simp)
              · rw [if_neg hok] at hex
                rw [hstop] at hex
                simp at hex
          | ok st2 =>
              have hstop2 : st2.stop_on_error = false := by
                rw [(execute_stage_preserves hex).2.2, hstop]
              exact ih st2 hstop2 (fun x hx => hall x (by simp [hx]))

/-- Claim C2: in the stage loop, an adapter failure under
`stop_on_error = true` makes the run exit with a failure code right at
the failing stage — the invoked list, always a sublist of the planned
stages, ends at that stage, so no later stage's adapter runs; under
`stop_on_error = false` the loop always finishes normally (failures are
only logged) for any stages drawn from the five pipeline stages. -/
theorem stage_failure_policy (ad : Adapters) (fs : List (List Char))
    (st : RState) (stages : List String) (s : String) :
    (st.stop_on_error = true → ad.ok s = false →
      s ∈ (run_stages ad fs st stages).2.1 →
      (run_stages ad fs st stages).2.2 = false ∧
        (run_stages ad fs st stages).2.1.getLast? = some s ∧
        ((run_stages ad fs st stages).2.1).Sublist stages) ∧
    (st.stop_on_error = false → (∀ x ∈ stages, x ∈ STAGES) →
      (run_stages ad fs st stages).2.2 = true) := by
  constructor
  · intro hstop hfail hmem
    obtain ⟨h1, h2⟩ := run_stages_stop_fail ad fs s stages st hstop hfail hmem
    exact ⟨h1, h2, run_stages_sublist ad fs stages st⟩
  · intro hstop hall
    exact run_stages_continue ad fs stages st hstop hall

/-- Adapters for the C2 witness: every stage succeeds except `analyze`. -/
def failAnalyzeAdapters : Adapters :=
  ⟨fun x => !(x == "analyze"), "stem".data⟩

/-- Runner state for the C2/C3 witnesses: default flags, no skips. -/
def defaultRunState : RState :=
  pipelineInit "https://www.youtube.com/watch?v=dQw4w9WgXcQ".data false [] true false

/-- Witness for C2: with `stop_on_error` on and the `analyze` adapter
failing, the concrete run exits with failure, invokes exactly
`download`, `transcribe`, `analyze`, and never reaches `cut` or
`export`. -/
theorem stage_failure_policy_witness :
    (defaultRunState.stop_on_error = true ∧
      failAnalyzeAdapters.ok "analyze" = false ∧
      "analyze" ∈ (run_stages failAnalyzeAdapters [] defaultRunState STAGES).2.1) ∧
    ((run_stages failAnalyzeAdapters [] defaultRunState STAGES).2.2 = false ∧
      (run_stages failAnalyzeAdapters [] defaultRunState STAGES).2.1.getLast? =
        some "analyze" ∧
      ((run_stages failAnalyzeAdapters [] defaultRunState STAGES).2.1).Sublist STAGES) :=
  ⟨⟨by decide, by decide, by decide⟩,
    (stage_failure_policy failAnalyzeAdapters [] defaultRunState STAGES "analyze").1
      (by decide) (by decide) (by decide)⟩

theorem run_stages_all_go (ad : Adapters) (fs : List (List Char)) :
    ∀ (stages : List String) (st : RState),
      st.skip_stages = [] →
      (∀ (v : Option (List Char)) (s : String), s ∈ stages →
        check_stage_completed fs v s = .ok false) →
      (∀ s ∈ stages, ad.ok s = true) →
      (run_stages ad fs st stages).2.1 = stages ∧
        (run_stages ad fs st stages).2.2 = true := by
  intro stages
  induction stages with
  | nil => intro st _ _ _; exact ⟨rfl, rfl⟩
  | cons stage rest ih =>
      intro st hskip hcheck hok
      have hsk : should_skip_stage st fs stage = .ok false := by
        unfold should_skip_stage
        rw [if_neg (by simp [hskip])]
        by_cases hr : st.resume
        · rw [if_pos hr]
          exact hcheck st.video_id stage (by simp)
        · rw [if_neg hr]
      obtain ⟨st2, hex⟩ := @execute_stage_ok_of_adapter ad st stage
        (hok stage (by simp))
      simp only [run_stages, hsk, hex]
      have hskip2 : st2.skip_stages = [] := by
        rw [(execute_stage_preserves hex).2.1, hskip]
      obtain ⟨h1, h2⟩ := ih st2 hskip2
        (fun v s hs => hcheck v s (by simp [hs]))
        (fun s hs => hok s (by simp [hs]))
      rw [h1, h2]
      exact ⟨rfl, rfl⟩

/-- Claim C3: with no forced skips and no satisfied checkpoints (for any
identifier value the run may hold), a run whose five adapters all succeed
invokes exactly the stages `download`, `transcribe`, `analyze`, `cut`,
`export`, once each, in that order — the invoked list is literally
`STAGES`, so no other stage name is ever invoked. -/
theorem full_run_exact_sequence (ad : Adapters) (fs : List (List Char))
    (st : RState) (hskip : st.skip_stages = [])
    (hcheck : ∀ (v : Option (List Char)) (s : String), s ∈ STAGES →
      check_stage_completed fs v s = .ok false)
    (hok : ∀ s ∈ STAGES, ad.ok s = true) :
    (run ad fs st).2.1 = STAGES ∧ (run ad fs st).2.2 = true :=
  run_stages_all_go ad fs STAGES st hskip hcheck hok

theorem check_empty_fs : ∀ (v : Option (List Char)) (s : String),
    s ∈ STAGES → check_stage_completed [] v s = .ok false := by
  intro v s hs
  match v with
  | none => rfl
  | some [] => rfl
  | some (c :: cs) =>
      simp only [STAGES, List.mem_cons, List.not_mem_nil, or_false] at hs
      rcases hs with rfl | rfl | rfl | rfl | rfl <;> rfl

/-- Adapters for the C3 witness: every stage succeeds. -/
def allOkAdapters : Adapters := ⟨fun _ => true, "stem".data⟩

/-- Witness for C3 on an empty filesystem with all-succeeding adapters. -/
theorem full_run_exact_sequence_witness :
    (defaultRunState.skip_stages = [] ∧
      (∀ (v : Option (List Char)) (s : String), s ∈ STAGES →
        check_stage_completed [] v s = .ok false) ∧
      (∀ s ∈ STAGES, allOkAdapters.ok s = true)) ∧
    ((run allOkAdapters [] defaultRunState).2.1 = STAGES ∧
      (run allOkAdapters [] defaultRunState).2.2 = true) :=
  ⟨⟨by decide, check_empty_fs, fun s _ => rfl⟩,
    full_run_exact_sequence allOkAdapters [] defaultRunState (by decide)
      check_empty_fs (fun s _ => rfl)⟩

/-! ### The set-once discipline of `video_id` -/

theorem searchP1_capture_valid : ∀ {l g : List Char}, searchP1 l = some g →
    g.length = 11 ∧ ∀ c ∈ g, isIdChar c = true := by
  intro l
  induction l with
  | nil => intro g h; exact absurd h (by simp [searchP1])
  | cons c rest ih =>
      intro g h
      simp only [searchP1] at h
      cases hm : matchAt1 (c :: rest) with
      | some g0 =>
          rw [hm] at h
          injection h with h
          subst h
          obtain ⟨post, _, hlen, hval⟩ := matchAt1_sound hm
          exact ⟨hlen, hval⟩
      | none =>
          rw [hm] at h
          exact ih h

theorem searchP2_capture_valid : ∀ {l g : List Char}, searchP2 l = some g →
    g.length = 11 ∧ ∀ c ∈ g, isIdChar c = true := by
  intro l
  induction l with
  | nil => intro g h; exact absurd h (by simp [searchP2])
  | cons c rest ih =>
      intro g h
      simp only [searchP2] at h
      cases hm : matchAt2 (c :: rest) with
      | some g0 =>
          rw [hm] at h
          injection h with h
          subst h
          obtain ⟨post, _, hlen, hval⟩ := matchAt2_sound hm
          exact ⟨hlen, hval⟩
      | none =>
          rw [hm] at h
          exact ih h

theorem matchP3_capture_valid {l g : List Char} (h : matchP3 l = some g) :
    g.length = 11 ∧ ∀ c ∈ g, isIdChar c = true := by
  unfold matchP3 at h
  cases h1 : grabValid 11 l with
  | none => rw [h1] at h; exact absurd h (by simp)
  | some g0 =>
      rw [h1] at h
      have h2 : (if l.length = 11 ∨ (l.length = 12 ∧ l.drop 11 = ['\n'])
          then some g0 else none) = some g := h
      obtain ⟨hlen, hval, _, _⟩ := grabValid_sound h1
      by_cases hc : l.length = 11 ∨ (l.length = 12 ∧ l.drop 11 = ['\n'])
      · rw [if_pos hc] at h2
        injection h2 with h2
        subst h2
        exact ⟨hlen, hval⟩
      · rw [if_neg hc] at h2
        exact absurd h2 (by simp)

theorem extract_capture_valid {url g : List Char}
    (h : extract_video_id url = some g) :
    g.length = 11 ∧ ∀ c ∈ g, isIdChar c = true := by
  unfold extract_video_id at h
  cases h1 : searchP1 url with
  | some g0 =>
      rw [h1] at h
      injection h with h
      subst h
      exact searchP1_capture_valid h1
  | none =>
      rw [h1] at h
      cases h2 : searchP2 url with
      | some g0 =>
          rw [h2] at h
          injection h with h
          subst h
          exact searchP2_capture_valid h2
      | none =>
          rw [h2] at h
          exact matchP3_capture_valid h

theorem execute_stage_video_id_other {ad : Adapters} {st : RState}
    {s : String} {st2 : RState} (hs : s ≠ "download")
    (h : execute_stage ad st s = .ok st2) : st2.video_id = st.video_id := by
  unfold execute_stage at h
  by_cases hok : ad.ok s
  · rw [if_pos hok] at h
    injection h with h
    subst h
    rw [if_neg hs]
    split_ifs <;> simp
  · rw [if_neg hok] at h
    by_cases hstop : st.stop_on_error
    · rw [if_pos hstop] at h
      exact absurd h (by simp)
    · rw [if_neg hstop] at h
      injection h with h
      subst h
      rfl

theorem execute_stage_video_id_truthy {ad : Adapters} {st : RState}
    {s : String} {st2 : RState} (ht : pyTruthy st.video_id = true)
    (h : execute_stage ad st s = .ok st2) : st2.video_id = st.video_id := by
  by_cases hs : s = "download"
  · subst hs
    unfold execute_stage at h
    by_cases hok : ad.ok "download"
    · rw [if_pos hok] at h
      injection h with h
      subst h
      rw [if_pos rfl, if_pos ht]
    · rw [if_neg hok] at h
      by_cases hstop : st.stop_on_error
      · rw [if_pos hstop] at h
        exact absurd h (by simp)
      · rw [if_neg hstop] at h
        injection h with h
        subst h
        rfl
  · exact execute_stage_video_id_other hs h

theorem run_stages_video_id (ad : Adapters) (fs : List (List Char)) :
    ∀ (stages : List String) (st : RState) (v : List Char),
      st.video_id = some v → v ≠ [] →
      ((run_stages ad fs st stages).1).video_id = some v := by
  intro stages
  induction stages with
  | nil => intro st v hv _; exact hv
  | cons stage rest ih =>
      intro st v hv hne
      have ht : pyTruthy st.video_id = true := by
        rw [hv]
        cases v with
        | nil => exact absurd rfl hne
        | cons a t => rfl
      cases hsk : should_skip_stage st fs stage with
      | error e => rw [run_stages_cons_skiperr hsk]; exact hv
      | ok b =>
          cases b with
          | true => rw [run_stages_cons_skip hsk]; exact ih st v hv hne
          | false =>
              cases hex : execute_stage ad st stage with
              | error e => rw [run_stages_cons_fail hsk hex]; exact hv
              | ok st2 =>
                  rw [run_stages_cons_exec hsk hex]
                  have hv2 : st2.video_id = some v := by
                    rw [execute_stage_video_id_truthy ht hex, hv]
                  exact ih st2 v hv2 hne

/-- Claim C10: `video_id` is written by exactly one operation — the
download branch of `execute_stage`, and only when the current value is
unset (Python-falsy): every other stage leaves it untouched, a truthy
value survives `download`, a whole run preserves any non-empty set value,
and the constructor only ever sets it to an 11-character extract (hence
never to the empty string, so "non-null" and "truthy" coincide for
reachable states). -/
theorem video_id_set_once (ad : Adapters) (fs : List (List Char)) :
    (∀ (st : RState) (s : String) (st2 : RState), s ≠ "download" →
      execute_stage ad st s = .ok st2 → st2.video_id = st.video_id) ∧
    (∀ (st : RState) (st2 : RState),
      execute_stage ad st "download" = .ok st2 →
      (pyTruthy st.video_id = true → st2.video_id = st.video_id) ∧
      (pyTruthy st.video_id = false → st2.video_id = st.video_id ∨
        st2.video_id = some ad.download_stem)) ∧
    (∀ (stages : List String) (st : RState) (v : List Char),
      st.video_id = some v → v ≠ [] →
      ((run_stages ad fs st stages).1).video_id = some v) ∧
    (∀ (url g : List Char), extract_video_id url = some g → g.length = 11) := by
  refine ⟨fun st s st2 hs h => execute_stage_video_id_other hs h,
    fun st st2 h => ⟨fun ht => execute_stage_video_id_truthy ht h, ?_⟩,
    run_stages_video_id ad fs,
    fun url g h => (extract_capture_valid h).1⟩
  intro hf
  unfold execute_stage at h
  by_cases hok : ad.ok "download"
  · rw [if_pos hok] at h
    injection h with h
    subst h
    rw [if_pos rfl, if_neg (by rw [hf]; simp)]
    right
    rfl
  · rw [if_neg hok] at h
    by_cases hstop : st.stop_on_error
    · rw [if_pos hstop] at h
      exact absurd h (by simp)
    · rw [if_neg hstop] at h
      injection h with h
      subst h
      left
      rfl

/-- Witness for C10: a full concrete run preserves the extracted
identifier. -/
theorem video_id_set_once_witness :
    (defaultRunState.video_id = some "dQw4w9WgXcQ".data ∧
      "dQw4w9WgXcQ".data ≠ ([] : List Char)) ∧
    ((run_stages allOkAdapters [] defaultRunState STAGES).1).video_id =
      some "dQw4w9WgXcQ".data :=
  ⟨⟨by decide, by decide⟩,
    (video_id_set_once allOkAdapters []).2.2.1 STAGES defaultRunState
      "dQw4w9WgXcQ".data (by decide) (by decide)⟩


/-! ### Claims about cut selection and statistics -/

theorem scoreDesc_trans : ∀ (a b c : Cut),
    scoreDesc a b → scoreDesc b c → scoreDesc a c := by
  intro a b c hab hbc
  simp only [scoreDesc, decide_eq_true_eq] at hab hbc ⊢
  exact le_trans hbc hab

theorem scoreDesc_total : ∀ (a b : Cut), scoreDesc a b || scoreDesc b a := by
  intro a b
  simp only [scoreDesc]
  rcases le_total a.viral_score b.viral_score with h | h <;> simp [h]

theorem analyzeCuts_mem {cuts : List Cut} {m : ℚ} {k : ℕ} {c : Cut}
    (hc : c ∈ analyzeCuts cuts m k) : m ≤ c.viral_score ∧ c ∈ cuts := by
  unfold analyzeCuts at hc
  have h1 : c ∈ (cuts.filter fun c => m ≤ c.viral_score).mergeSort scoreDesc :=
    (List.take_sublist _ _).subset hc
  have h2 : c ∈ cuts.filter fun c => m ≤ c.viral_score :=
    List.mem_mergeSort.mp h1
  have h3 := List.mem_filter.mp h2
  exact ⟨by simpa using h3.2, h3.1⟩

theorem analyzeCuts_pairwise (cuts : List Cut) (m : ℚ) (k : ℕ) :
    (analyzeCuts cuts m k).Pairwise (fun a b => scoreDesc a b) := by
  unfold analyzeCuts
  exact (List.sorted_mergeSort scoreDesc_trans scoreDesc_total _).sublist
    (List.take_sublist _ _)

/-- The concrete candidates of the spec's scenario: viral scores
9.5 (= 19/2), 8.0, 7.9 (= 79/10), 6.0. -/
def scenarioCuts : List Cut :=
  [⟨0, 30, 30, mkRat 19 2⟩, ⟨40, 70, 30, 8⟩,
   ⟨80, 110, 30, mkRat 79 10⟩, ⟨120, 150, 30, 6⟩]

theorem scenario_filter :
    (scenarioCuts.filter fun c => (8 : ℚ) ≤ c.viral_score) =
      [⟨0, 30, 30, mkRat 19 2⟩, ⟨40, 70, 30, 8⟩] := by decide

theorem scenario_cuts_eval :
    analyzeCuts scenarioCuts 8 3 =
      [⟨0, 30, 30, mkRat 19 2⟩, ⟨40, 70, 30, 8⟩] := by
  show (((scenarioCuts.filter fun c => (8 : ℚ) ≤ c.viral_score).mergeSort
      scoreDesc).take 3) = _
  rw [scenario_filter]
  rw [List.mergeSort_of_sorted (by simp [List.pairwise_cons, scoreDesc]; decide)]
  rfl

/-- Claim C7: the retained cut list holds only candidates at or above
the minimum score, drawn from the input, in descending score order, at
most the export cap many; when the cap does not bite, it is exactly the
set of candidates above the threshold; and on the spec's concrete
scenario (scores 9.5, 8.0, 7.9, 6.0, minimum 8.0, cap 3) the retained
list is exactly the 9.5- and 8.0-scored cuts in that order. -/
theorem analyze_cuts_spec (cuts : List Cut) (m : ℚ) (k : ℕ) :
    (∀ c ∈ analyzeCuts cuts m k, m ≤ c.viral_score ∧ c ∈ cuts) ∧
    (analyzeCuts cuts m k).Pairwise
      (fun a b => b.viral_score ≤ a.viral_score) ∧
    (analyzeCuts cuts m k).length ≤ k ∧
    ((cuts.filter fun c => m ≤ c.viral_score).length ≤ k →
      (analyzeCuts cuts m k).Perm (cuts.filter fun c => m ≤ c.viral_score)) ∧
    analyzeCuts scenarioCuts 8 3 =
      [⟨0, 30, 30, mkRat 19 2⟩, ⟨40, 70, 30, 8⟩] := by
  refine ⟨fun c hc => analyzeCuts_mem hc, ?_, ?_, ?_, scenario_cuts_eval⟩
  · exact (analyzeCuts_pairwise cuts m k).imp
      (fun h => by simpa [scoreDesc] using h)
  · unfold analyzeCuts
    exact List.length_take_le _ _
  · intro hlen
    unfold analyzeCuts
    rw [List.take_of_length_le (by simpa using hlen)]
    exact List.mergeSort_perm _ _

/-- Witness for C7: the cap-not-binding clause at the concrete
scenario. -/
theorem analyze_cuts_spec_witness :
    ((scenarioCuts.filter fun c => (8 : ℚ) ≤ c.viral_score).length ≤ 3) ∧
    (analyzeCuts scenarioCuts 8 3).Perm
      (scenarioCuts.filter fun c => (8 : ℚ) ≤ c.viral_score) :=
  ⟨by decide, (analyze_cuts_spec scenarioCuts 8 3).2.2.2.1 (by decide)⟩

/-- Claim C8: filter-sort-truncate is idempotent — feeding its output
back through the same selection with the same threshold and cap returns
it unchanged. -/
theorem analyze_cuts_idempotent (cuts : List Cut) (m : ℚ) (k : ℕ) :
    analyzeCuts (analyzeCuts cuts m k) m k = analyzeCuts cuts m k := by
  have hfilter : ((analyzeCuts cuts m k).filter
      fun c => m ≤ c.viral_score) = analyzeCuts cuts m k := by
    rw [List.filter_eq_self]
    intro a ha
    simpa using (analyzeCuts_mem ha).1
  have hsorted : ((analyzeCuts cuts m k).mergeSort scoreDesc) =
      analyzeCuts cuts m k :=
    List.mergeSort_of_sorted (analyzeCuts_pairwise cuts m k)
  have hlen : (analyzeCuts cuts m k).length ≤ k := by
    unfold analyzeCuts
    exact List.length_take_le _ _
  show (((analyzeCuts cuts m k).filter
      fun c => m ≤ c.viral_score).mergeSort scoreDesc).take k =
    analyzeCuts cuts m k
  rw [hfilter, hsorted]
  exact List.take_of_length_le hlen

theorem analyzeCuts_low_single :
    analyzeCuts [⟨0, 30, 30, 6⟩] 8 3 = [] := by
  show ((([(⟨0, 30, 30, 6⟩ : Cut)].filter
      fun c => (8 : ℚ) ≤ c.viral_score).mergeSort scoreDesc).take 3) = []
  rw [show ([(⟨0, 30, 30, 6⟩ : Cut)].filter
      fun c => (8 : ℚ) ≤ c.viral_score) = [] from by decide]
  simp

theorem analyzeCuts_nil : analyzeCuts [] 8 3 = [] := by
  show ((([] : List Cut).filter
      fun c => (8 : ℚ) ≤ c.viral_score).mergeSort scoreDesc).take 3 = []
  simp

/-- Counterexample to C9 as stated: `total_analyzed` is not a summary
computed over the final retained cut list — two validated lists with the
same (empty) final list produce different `total_analyzed`. -/
theorem analyze_stats_counterexample :
    analyzeCuts [⟨0, 30, 30, 6⟩] 8 3 = analyzeCuts [] 8 3 ∧
    (analyzeStats [⟨0, 30, 30, 6⟩] 8 3).total_analyzed ≠
      (analyzeStats [] 8 3).total_analyzed := by
  refine ⟨?_, by decide⟩
  rw [analyzeCuts_low_single, analyzeCuts_nil]

/-- Claim C9 (amended): `exported` and `avg_viral_score` are derived,
read-only summaries of the final retained cut list (its length, and the
arithmetic mean of its scores, `0` when the list is empty), while
`total_analyzed` and `filtered` are summaries of the validated list
before and after the threshold filter — all four are pure functions of
the analysis inputs. -/
theorem analyze_stats_fields (v : List Cut) (m : ℚ) (k : ℕ) :
    (analyzeStats v m k).total_analyzed = v.length ∧
    (analyzeStats v m k).filtered =
      (v.filter fun c => m ≤ c.viral_score).length ∧
    (analyzeStats v m k).exported = (analyzeCuts v m k).length ∧
    (analyzeCuts v m k = [] → (analyzeStats v m k).avg_viral_score = 0) ∧
    (analyzeCuts v m k ≠ [] →
      (analyzeStats v m k).avg_viral_score =
        ((analyzeCuts v m k).map Cut.viral_score).sum /
          (analyzeCuts v m k).length) := by
  refine ⟨rfl, rfl, rfl, ?_, ?_⟩
  · intro hnil
    simp only [analyzeStats]
    rw [if_pos (by simpa using hnil)]
  · intro hne
    simp only [analyzeStats]
    rw [if_neg (by simpa using hne)]

theorem analyzeCuts_high_single :
    analyzeCuts [⟨0, 30, 30, 9⟩] 8 3 = [⟨0, 30, 30, 9⟩] := by
  show ((([(⟨0, 30, 30, 9⟩ : Cut)].filter
      fun c => (8 : ℚ) ≤ c.viral_score).mergeSort scoreDesc).take 3) = _
  rw [show ([(⟨0, 30, 30, 9⟩ : Cut)].filter
      fun c => (8 : ℚ) ≤ c.viral_score) = [⟨0, 30, 30, 9⟩] from by decide]
  simp

/-- Witness for C9 at a concrete nonempty analysis. -/
theorem analyze_stats_fields_witness :
    (analyzeCuts [⟨0, 30, 30, 9⟩] 8 3 ≠ []) ∧
    (analyzeStats [⟨0, 30, 30, 9⟩] 8 3).avg_viral_score =
      ((analyzeCuts [⟨0, 30, 30, 9⟩] 8 3).map Cut.viral_score).sum /
        (analyzeCuts [⟨0, 30, 30, 9⟩] 8 3).length :=
  ⟨by rw [analyzeCuts_high_single]; simp,
    (analyze_stats_fields [⟨0, 30, 30, 9⟩] 8 3).2.2.2.2
      (by rw [analyzeCuts_high_single]; simp)⟩

end ShortsPipeline
